import Mathlib

/-!
Shallow embedding of src/application.py (zk-slot-soundness).

The script parses storage-slot identifiers from flags or a JSON manifest,
reads each slot from two RPC endpoints, diffs the two label-to-value maps
and derives a process exit code.  Strings are handled through their
character lists; the web3 library (address validation, connectivity,
storage reads) is abstracted as an oracle record.  Python dictionaries are
modelled as insertion-ordered association lists with unique keys maintained
by an update-in-place insert.
-/

namespace ZkSlot

/-- ASCII whitespace stripped by Python str.strip (ASCII fragment of the
Python whitespace set). -/
def isPySpace (c : Char) : Bool :=
  c = ' ' || c = '\t' || c = '\n' || c = '\r' || c = '\x0b' || c = '\x0c'

/-- Python str.strip on the character list. -/
def pyStrip (cs : List Char) : List Char :=
  ((cs.dropWhile isPySpace).reverse.dropWhile isPySpace).reverse

/-- Python str.lower (ASCII fragment, via Char.toLower). -/
def pyLower (cs : List Char) : List Char :=
  cs.map Char.toLower

/-- Lower-case hexadecimal digit test (inputs are lower-cased before use). -/
def isHexDigit (c : Char) : Bool :=
  (decide ('0' ≤ c) && decide (c ≤ '9')) || (decide ('a' ≤ c) && decide (c ≤ 'f'))

/-- Numeric value of a lower-case hexadecimal digit. -/
def hexVal (c : Char) : Nat :=
  if decide ('0' ≤ c) && decide (c ≤ '9') then c.toNat - '0'.toNat
  else c.toNat - 'a'.toNat + 10

/-- CPython int(s, 16) digit loop after the first digit group has started:
a single underscore is permitted between digits and is skipped. -/
def parseRest : Nat → List Char → Option Nat
  | acc, [] => some acc
  | acc, c :: cs =>
    if c = '_' then
      match cs with
      | [] => none
      | c2 :: cs2 => if isHexDigit c2 then parseRest (16 * acc + hexVal c2) cs2 else none
    else if isHexDigit c then parseRest (16 * acc + hexVal c) cs else none

/-- CPython int(s, 16) on the payload after the 0x marker: the payload must
be non-empty, one underscore may directly follow the marker, and single
underscores may separate digits. -/
def parsePayload : List Char → Option Nat
  | [] => none
  | c :: cs =>
    if c = '_' then
      match cs with
      | [] => none
      | c2 :: cs2 => if isHexDigit c2 then parseRest (hexVal c2) cs2 else none
    else if isHexDigit c then parseRest (hexVal c) cs else none

/-- Leading-segment test on character lists (Python str.startswith). -/
def listLeads : List Char → List Char → Bool
  | [], _ => true
  | _ :: _, [] => false
  | c :: cs, d :: ds => c = d && listLeads cs ds

/-- Model of parse_slot_hex from application.py: strip and lower-case the input,
require the 0x marker via startswith, then parse the remainder as a
base-16 integer. -/
def parse_slot_hex (raw : String) : Except String Nat :=
  let s := pyLower (pyStrip raw.data)
  if listLeads ['0', 'x'] s then
    match parsePayload (s.drop 2) with
    | some n => Except.ok n
    | none => Except.error ("Invalid slot hex: " ++ raw)
  else Except.error ("Slot must be 0x-prefixed hex: " ++ raw)

/-- A slot specification: (label, slot index). -/
abbrev Slot := String × Nat

/-- Python item.split with a colon and maxsplit 1, guarded by the
membership test: returns the parts around the first colon when one
occurs, and none otherwise. -/
def splitColon : List Char → Option (List Char × List Char)
  | [] => none
  | c :: cs =>
    if c = ':' then some ([], cs)
    else
      match splitColon cs with
      | some (l, r) => some (c :: l, r)
      | none => none

/-- One --slot item: label:0xHEX, or bare 0xHEX labelled by itself. -/
def parseSlotItem (item : String) : Except String Slot :=
  match splitColon item.data with
  | some (l, r) => (parse_slot_hex (String.mk r)).map (fun n => (String.mk l, n))
  | none => (parse_slot_hex item).map (fun n => (item, n))

/-- A manifest decoded from JSON: an array of strings, an object of
string pairs in insertion order, or any other JSON value. -/
inductive Manifest where
  | arr (xs : List String)
  | obj (kvs : List (String × String))
  | other

/-- The Python for-loop that appends one parsed slot per element and lets
the first failure abort the whole parse. -/
def collectSlots {α : Type} (f : α → Except String Slot) : List α → Except String (List Slot)
  | [] => Except.ok []
  | x :: xs =>
    match f x with
    | Except.error e => Except.error e
    | Except.ok s =>
      match collectSlots f xs with
      | Except.error e => Except.error e
      | Except.ok rest => Except.ok (s :: rest)

/-- Slots drawn from a decoded manifest: arrays label each entry by its raw
string, objects by their key; any other shape is an error. -/
def manifestSlots : Manifest → Except String (List Slot)
  | Manifest.arr xs => collectSlots (fun raw => (parse_slot_hex raw).map (fun n => (raw, n))) xs
  | Manifest.obj kvs => collectSlots (fun lr => (parse_slot_hex lr.2).map (fun n => (lr.1, n))) kvs
  | Manifest.other =>
    Except.error "Manifest must be a list of 0x-hex slots or a mapping label -> 0x-hex slot."

/-- The slot-source arguments: the repeatable --slot flag (none when the
flag is absent) and the --manifest file (none when the flag is absent,
otherwise the outcome of opening and JSON-decoding the file). -/
structure SlotArgs where
  slot : Option (List String)
  manifest : Option (Except String Manifest)

/-- Python truthiness of args.slot: a present, non-empty list. -/
def slotTruthy : Option (List String) → Bool
  | none => false
  | some l => !l.isEmpty

/-- Model of parse_slots from application.py: --slot items take priority when
truthy; otherwise the manifest is loaded; otherwise an error. -/
def parse_slots (args : SlotArgs) : Except String (List Slot) :=
  if slotTruthy args.slot then
    collectSlots parseSlotItem (args.slot.getD [])
  else
    match args.manifest with
    | some (Except.ok m) => manifestSlots m
    | some (Except.error e) => Except.error e
    | none => Except.error "No slots provided. Use --slot (repeatable) or --manifest JSON file."

/-- A Python dict of strings: insertion-ordered association list with
unique keys maintained by dictInsert. -/
abbrev Dict := List (String × String)

/-- Python dict assignment d[k] = v: update in place when the key exists,
append otherwise. -/
def dictInsert : Dict → String → String → Dict
  | [], k, v => [(k, v)]
  | kv :: rest, k, v =>
    if kv.1 = k then (k, v) :: rest else kv :: dictInsert rest k v

/-- Key lookup in a dict. -/
def dictLookup (d : Dict) (k : String) : Option String :=
  (d.find? (fun kv => kv.1 = k)).map (fun kv => kv.2)

/-- Python d.get(k, dflt). -/
def dictGetD (d : Dict) (k dflt : String) : String :=
  (dictLookup d k).getD dflt

/-- The value recorded for one slot read: the storage word on success, the
ERROR: marker built from the exception text on failure (the per-slot
try/except in read_slots). -/
def slotValue (oracle : Nat → Except String String) (i : Nat) : String :=
  match oracle i with
  | Except.ok v => v
  | Except.error e => "ERROR:" ++ e

/-- Model of read_slots from application.py: one storage read per slot, failures
recorded as ERROR: markers, results keyed by label. -/
def read_slots (oracle : Nat → Except String String) (slots : List Slot) : Dict :=
  slots.foldl (fun out ls => dictInsert out ls.1 (slotValue oracle ls.2)) []

/-- The sorted union of the two key sets, as compare computes it. -/
def unionKeys (a b : Dict) : List String :=
  ((a.map Prod.fst ++ b.map Prod.fst).dedup).mergeSort (fun x y => decide (x ≤ y))

/-- Model of compare from application.py: walk the sorted key union, treat an
absent key as MISSING, collect unequal pairs and clear the flag. -/
def compare (a b : Dict) : List (String × String × String) × Bool :=
  (unionKeys a b).foldl
    (fun acc k =>
      let va := dictGetD a k "MISSING"
      let vb := dictGetD b k "MISSING"
      if va ≠ vb then (acc.1 ++ [(k, va, vb)], false) else acc)
    ([], true)

/-- The web3 library abstracted: address validation and checksumming,
per-endpoint connectivity, and the storage word (or raised exception) per
slot index for each endpoint at its block tag. -/
structure Web3Model where
  is_address : String → Bool
  to_checksum_address : String → String
  connected_a : Bool
  connected_b : Bool
  storage_a : Nat → Except String String
  storage_b : Nat → Except String String

/-- Model of to_checksum from application.py. -/
def to_checksum (w : Web3Model) (addr : String) : Except String String :=
  if w.is_address addr then Except.ok (w.to_checksum_address addr)
  else Except.error ("Invalid Ethereum address: " ++ addr)

/-- The URL scheme check in main: str(url).startswith on the two schemes. -/
def startsWithHttp (url : String) : Bool :=
  listLeads "http://".data url.data || listLeads "https://".data url.data

/-- The command-line inputs that determine the exit code. -/
structure MainArgs where
  address : String
  rpc_a : String
  rpc_b : String
  slot : Option (List String)
  manifest : Option (Except String Manifest)

/-- The per-slot report loop in main: count the slots whose two looked-up
values (default MISSING) differ. -/
def mainMismatches (slots : List Slot) (a b : Dict) : Nat :=
  slots.foldl
    (fun m ls =>
      if dictGetD a ls.1 "MISSING" ≠ dictGetD b ls.1 "MISSING" then m + 1 else m)
    0

/-- The exit code computed by main: URL scheme checks, then address and
slot validation, then connectivity, then the reads and the mismatch count. -/
def mainExit (w : Web3Model) (args : MainArgs) : Nat :=
  if !startsWithHttp args.rpc_a then 1
  else if !startsWithHttp args.rpc_b then 1
  else
    match to_checksum w args.address with
    | Except.error _ => 1
    | Except.ok _ =>
      match parse_slots ⟨args.slot, args.manifest⟩ with
      | Except.error _ => 1
      | Except.ok slots =>
        if !w.connected_a then 1
        else if !w.connected_b then 1
        else
          let a_vals := read_slots w.storage_a slots
          let b_vals := read_slots w.storage_b slots
          if mainMismatches slots a_vals b_vals = 0 then 0 else 2

/-! ### Dictionary and read_slots lemmas -/

lemma dictLookup_nil (k : String) : dictLookup [] k = none := rfl

lemma dictLookup_cons (kv : String × String) (rest : Dict) (k : String) :
    dictLookup (kv :: rest) k = if kv.1 = k then some kv.2 else dictLookup rest k := by
  by_cases h : kv.1 = k <;> simp [dictLookup, List.find?_cons, h]

lemma dictLookup_insert (d : Dict) (k v k' : String) :
    dictLookup (dictInsert d k v) k' = if k = k' then some v else dictLookup d k' := by
  induction d with
  | nil =>
    by_cases h : k = k' <;> simp [dictInsert, dictLookup, List.find?_cons, h]
  | cons kv rest ih =>
    by_cases h1 : kv.1 = k
    · by_cases h2 : k = k' <;>
        simp_all [dictInsert, dictLookup_cons]
    · by_cases h2 : kv.1 = k' <;> by_cases h3 : k = k' <;>
        simp_all [dictInsert, dictLookup_cons]

lemma lookup_foldl_insert (oracle : Nat → Except String String) (slots : List Slot) :
    ∀ (d : Dict) (lbl : String),
      dictLookup (slots.foldl (fun out ls => dictInsert out ls.1 (slotValue oracle ls.2)) d) lbl =
        ((slots.reverse.find? (fun ls => ls.1 = lbl)).map
          (fun ls => slotValue oracle ls.2)).or (dictLookup d lbl) := by
  induction slots with
  | nil => intro d lbl; simp
  | cons s ss ih =>
    intro d lbl
    simp only [List.foldl_cons, List.reverse_cons, List.find?_append]
    rw [ih]
    cases hf : ss.reverse.find? (fun ls => ls.1 = lbl) with
    | some a => simp
    | none =>
      by_cases h : s.1 = lbl <;>
        simp [List.find?_cons, h, dictLookup_insert]

lemma lookup_read_slots (oracle : Nat → Except String String) (slots : List Slot)
    (lbl : String) :
    dictLookup (read_slots oracle slots) lbl =
      (slots.reverse.find? (fun ls => ls.1 = lbl)).map (fun ls => slotValue oracle ls.2) := by
  unfold read_slots
  rw [lookup_foldl_insert]
  simp [dictLookup_nil]

lemma mem_keys_iff_lookup (d : Dict) (k : String) :
    k ∈ d.map Prod.fst ↔ (dictLookup d k).isSome := by
  induction d with
  | nil => simp [dictLookup]
  | cons kv rest ih =>
    rw [dictLookup_cons]
    by_cases h : kv.1 = k
    · simp [h]
    · simp only [List.map_cons, List.mem_cons, if_neg h, ih]
      constructor
      · rintro (h1 | h1)
        · exact absurd h1.symm h
        · exact h1
      · exact Or.inr

lemma keys_read_slots (oracle : Nat → Except String String) (slots : List Slot)
    (lbl : String) :
    lbl ∈ (read_slots oracle slots).map Prod.fst ↔ lbl ∈ slots.map Prod.fst := by
  rw [mem_keys_iff_lookup, lookup_read_slots]
  cases hf : slots.reverse.find? (fun ls => ls.1 = lbl) with
  | some a =>
    have ha : a.1 = lbl := by simpa using List.find?_some hf
    have hm : a ∈ slots := by
      have := List.mem_of_find?_eq_some hf
      simpa using this
    have hmem : lbl ∈ List.map Prod.fst slots := List.mem_map.mpr ⟨a, hm, ha⟩
    simp [hmem]
  | none =>
    have hn := List.find?_eq_none.mp hf
    have hmem : lbl ∉ List.map Prod.fst slots := by
      intro hmem
      rcases List.mem_map.mp hmem with ⟨ls, hls, hk⟩
      exact hn ls (by simpa using hls) (by simp [hk])
    simp [hmem]

/-! ### compare lemmas -/

/-- The mismatch list of compare, written directly as a filterMap over the
sorted key union. -/
def mismatchList (a b : Dict) : List (String × String × String) :=
  (unionKeys a b).filterMap (fun k =>
    if dictGetD a k "MISSING" ≠ dictGetD b k "MISSING" then
      some (k, dictGetD a k "MISSING", dictGetD b k "MISSING")
    else none)

lemma compare_foldl (a b : Dict) (keys : List String) :
    ∀ (l : List (String × String × String)) (flag : Bool),
      keys.foldl
        (fun acc k =>
          let va := dictGetD a k "MISSING"
          let vb := dictGetD b k "MISSING"
          if va ≠ vb then (acc.1 ++ [(k, va, vb)], false) else acc)
        (l, flag) =
      (l ++ keys.filterMap (fun k =>
          if dictGetD a k "MISSING" ≠ dictGetD b k "MISSING" then
            some (k, dictGetD a k "MISSING", dictGetD b k "MISSING")
          else none),
        flag && (keys.filterMap (fun k =>
          if dictGetD a k "MISSING" ≠ dictGetD b k "MISSING" then
            some (k, dictGetD a k "MISSING", dictGetD b k "MISSING")
          else none)).isEmpty) := by
  induction keys with
  | nil => intro l flag; simp
  | cons k ks ih =>
    intro l flag
    by_cases h : dictGetD a k "MISSING" ≠ dictGetD b k "MISSING"
    · simp only [List.foldl_cons, List.filterMap_cons, if_pos h, h]
      rw [ih]
      simp
    · simp only [List.foldl_cons, List.filterMap_cons, if_neg h, h]
      rw [ih]
      simp

lemma compare_eq (a b : Dict) :
    compare a b = (mismatchList a b, (mismatchList a b).isEmpty) := by
  unfold compare mismatchList
  rw [compare_foldl]
  simp

lemma mem_unionKeys (a b : Dict) (k : String) :
    k ∈ unionKeys a b ↔ (k ∈ a.map Prod.fst ∨ k ∈ b.map Prod.fst) := by
  unfold unionKeys
  rw [(List.mergeSort_perm _ _).mem_iff]
  simp [List.mem_dedup, List.mem_append]

lemma sorted_unionKeys (a b : Dict) :
    (unionKeys a b).Pairwise (fun x y : String => x ≤ y) := by
  unfold unionKeys
  refine List.Pairwise.imp (fun h => of_decide_eq_true h)
    (List.sorted_mergeSort ?_ ?_ ((a.map Prod.fst ++ b.map Prod.fst).dedup))
  · intro x y z h1 h2
    exact decide_eq_true (le_trans (of_decide_eq_true h1) (of_decide_eq_true h2))
  · intro x y
    rcases le_total x y with h | h <;> simp [h]

lemma filterMap_mismatch_map_fst (a b : Dict) (l : List String) :
    (l.filterMap (fun k =>
      if dictGetD a k "MISSING" ≠ dictGetD b k "MISSING" then
        some (k, dictGetD a k "MISSING", dictGetD b k "MISSING")
      else none)).map (fun t => t.1)
    = l.filter (fun k => decide (dictGetD a k "MISSING" ≠ dictGetD b k "MISSING")) := by
  induction l with
  | nil => rfl
  | cons k ks ih =>
    simp only [List.filterMap_cons, List.filter_cons]
    by_cases h : dictGetD a k "MISSING" ≠ dictGetD b k "MISSING"
    · rw [if_pos h, if_pos (decide_eq_true h)]
      simp only [List.map_cons, ih]
    · rw [if_neg h, if_neg (fun hc => h (of_decide_eq_true hc))]
      exact ih

lemma compare_example :
    compare [("x", "0x1")] [] = ([("x", "0x1", "MISSING")], false) := by
  rw [compare_eq]
  have hu : unionKeys [("x", "0x1")] [] = ["x"] := by
    simp [unionKeys, List.mergeSort_singleton]
  simp [mismatchList, hu, dictGetD, dictLookup, List.find?_cons]

/-- Claim C1: compare returns the list of triples (label, a-value, b-value),
one for each key of the sorted union of the two key sets at which the two
values (an absent key read as MISSING) differ, in sorted key order, and a
boolean that is true iff that list is empty; on A = x maps-to 0x1 and B
empty it returns the single mismatch (x, 0x1, MISSING) and false. -/
theorem claim1_compare (a b : Dict) :
    (compare a b).1 = mismatchList a b
  ∧ ((compare a b).2 = true ↔ (compare a b).1 = [])
  ∧ ((compare a b).1.map (fun t => t.1)).Pairwise (fun x y : String => x ≤ y)
  ∧ (∀ k, k ∈ (compare a b).1.map (fun t => t.1) ↔
      ((k ∈ a.map Prod.fst ∨ k ∈ b.map Prod.fst) ∧
        dictGetD a k "MISSING" ≠ dictGetD b k "MISSING"))
  ∧ (∀ t, t ∈ (compare a b).1 →
      t.2.1 = dictGetD a t.1 "MISSING" ∧ t.2.2 = dictGetD b t.1 "MISSING")
  ∧ compare [("x", "0x1")] [] = ([("x", "0x1", "MISSING")], false) := by
  refine ⟨by rw [compare_eq], ?_, ?_, ?_, ?_, compare_example⟩
  · rw [compare_eq]
    simp [List.isEmpty_iff]
  · rw [compare_eq]
    show ((mismatchList a b).map (fun t => t.1)).Pairwise _
    rw [mismatchList, filterMap_mismatch_map_fst]
    exact List.Pairwise.sublist (List.filter_sublist _) (sorted_unionKeys a b)
  · intro k
    rw [compare_eq]
    show k ∈ (mismatchList a b).map (fun t => t.1) ↔ _
    rw [mismatchList, filterMap_mismatch_map_fst]
    simp [List.mem_filter, mem_unionKeys]
  · intro t ht
    rw [compare_eq] at ht
    rcases List.mem_filterMap.mp ht with ⟨k, _, hsome⟩
    by_cases h : dictGetD a k "MISSING" ≠ dictGetD b k "MISSING"
    · rw [if_pos h] at hsome
      cases hsome
      exact ⟨rfl, rfl⟩
    · rw [if_neg h] at hsome
      cases hsome

theorem claim1_compare_witness :
    ("x", "0x1", "MISSING").2.1 = dictGetD [("x", "0x1")] "x" "MISSING" ∧
    ("x", "0x1", "MISSING").2.2 = dictGetD ([] : Dict) "x" "MISSING" :=
  (claim1_compare [("x", "0x1")] []).2.2.2.2.1 ("x", "0x1", "MISSING")
    (by rw [compare_example]; exact List.mem_singleton.mpr rfl)

lemma lookup_last_occurrence (oracle : Nat → Except String String)
    (pre post : List Slot) (lbl : String) (i : Nat)
    (h : ∀ ls ∈ post, ls.1 ≠ lbl) :
    dictLookup (read_slots oracle (pre ++ (lbl, i) :: post)) lbl =
      some (slotValue oracle i) := by
  rw [lookup_read_slots, List.reverse_append]
  simp only [List.reverse_cons, List.find?_append]
  have hpost : post.reverse.find? (fun ls => ls.1 = lbl) = none :=
    List.find?_eq_none.mpr (fun x hx => by simpa using h x (List.mem_reverse.mp hx))
  rw [hpost]
  simp [List.find?_cons]

lemma errorMarker_ne_missing (e : String) : ("ERROR:" ++ e : String) ≠ "MISSING" := by
  intro h
  have h2 := congrArg String.data h
  simp [String.data_append] at h2

/-- Claim C8: with duplicate labels, the map read_slots builds holds the
value of the last occurrence of the label in input order; earlier
occurrences are overwritten and no error is ever raised for duplicates
(read_slots returns a plain map on every input). -/
theorem claim8_duplicate_labels (oracle : Nat → Except String String)
    (pre post : List Slot) (lbl : String) (i : Nat)
    (h : ∀ ls ∈ post, ls.1 ≠ lbl) :
    dictLookup (read_slots oracle (pre ++ (lbl, i) :: post)) lbl =
      some (slotValue oracle i) :=
  lookup_last_occurrence oracle pre post lbl i h

theorem claim8_duplicate_labels_witness :
    dictLookup
      (read_slots (fun i => Except.ok (if i = 0 then "0xaa" else "0xbb"))
        [("a", 0), ("a", 1)]) "a" =
      some (slotValue (fun i => Except.ok (if i = 0 then "0xaa" else "0xbb")) 1) :=
  claim8_duplicate_labels (fun i => Except.ok (if i = 0 then "0xaa" else "0xbb"))
    [("a", 0)] [] "a" 1 (fun ls hls => absurd hls (List.not_mem_nil ls))

/-- Claim C7: a failing storage read for a slot is recorded as an
ERROR:-prefixed marker value for that slot's label, and every remaining
slot still gets an entry; read_slots never propagates a per-slot
exception (it returns a plain map on every input). -/
theorem claim7_error_marker (oracle : Nat → Except String String)
    (pre post : List Slot) (lbl : String) (i : Nat) (e : String)
    (herr : oracle i = Except.error e)
    (h : ∀ ls ∈ post, ls.1 ≠ lbl) :
    dictLookup (read_slots oracle (pre ++ (lbl, i) :: post)) lbl =
      some ("ERROR:" ++ e)
  ∧ ∀ lbl2 ∈ (pre ++ (lbl, i) :: post).map Prod.fst,
      ∃ v, dictLookup (read_slots oracle (pre ++ (lbl, i) :: post)) lbl2 = some v := by
  constructor
  · rw [lookup_last_occurrence oracle pre post lbl i h]
    simp [slotValue, herr]
  · intro lbl2 hmem
    have hk := (keys_read_slots oracle (pre ++ (lbl, i) :: post) lbl2).mpr hmem
    rw [mem_keys_iff_lookup] at hk
    exact Option.isSome_iff_exists.mp hk

theorem claim7_error_marker_witness :
    dictLookup (read_slots (fun _ => Except.error "boom") [("a", 0)]) "a" =
      some ("ERROR:" ++ "boom")
  ∧ ∀ lbl2 ∈ ([("a", 0)] : List Slot).map Prod.fst,
      ∃ v, dictLookup (read_slots (fun _ => Except.error "boom") [("a", 0)]) lbl2 = some v :=
  claim7_error_marker (fun _ => Except.error "boom") [] [] "a" 0 "boom" rfl
    (fun ls hls => absurd hls (List.not_mem_nil ls))

/-- Claim C9: the key set of the map read_slots returns is exactly the set
of labels in the slot list; the two maps main builds from the same slot
list have identical key sets, and the report lookup with default MISSING
never falls back to the default (and, as storage reads never return the
literal MISSING, never yields the sentinel). -/
theorem claim9_key_sets (oA oB : Nat → Except String String) (slots : List Slot) :
    (∀ lbl, lbl ∈ (read_slots oA slots).map Prod.fst ↔ lbl ∈ slots.map Prod.fst)
  ∧ (∀ lbl, lbl ∈ (read_slots oA slots).map Prod.fst ↔
      lbl ∈ (read_slots oB slots).map Prod.fst)
  ∧ (∀ lbl, lbl ∈ slots.map Prod.fst →
      ∃ v, dictLookup (read_slots oA slots) lbl = some v ∧
        dictGetD (read_slots oA slots) lbl "MISSING" = v)
  ∧ (∀ lbl, lbl ∈ slots.map Prod.fst →
      (∀ i v, oA i = Except.ok v → v ≠ "MISSING") →
      dictGetD (read_slots oA slots) lbl "MISSING" ≠ "MISSING") := by
  refine ⟨fun lbl => keys_read_slots oA slots lbl, ?_, ?_, ?_⟩
  · intro lbl
    exact (keys_read_slots oA slots lbl).trans (keys_read_slots oB slots lbl).symm
  · intro lbl hmem
    have hk := (keys_read_slots oA slots lbl).mpr hmem
    rw [mem_keys_iff_lookup] at hk
    rcases Option.isSome_iff_exists.mp hk with ⟨v, hv⟩
    exact ⟨v, hv, by simp [dictGetD, hv]⟩
  · intro lbl hmem hok
    have hk := (keys_read_slots oA slots lbl).mpr hmem
    rw [mem_keys_iff_lookup] at hk
    rcases Option.isSome_iff_exists.mp hk with ⟨v, hv⟩
    have hv2 := hv
    rw [lookup_read_slots] at hv2
    rcases Option.map_eq_some'.mp hv2 with ⟨ls, _, hval⟩
    rw [dictGetD, hv, Option.getD_some, ← hval]
    cases hoc : oA ls.2 with
    | ok v' =>
      simp only [slotValue, hoc]
      exact hok ls.2 v' hoc
    | error e =>
      simp only [slotValue, hoc]
      exact errorMarker_ne_missing e

theorem claim9_key_sets_witness :
    dictGetD (read_slots (fun _ => Except.ok "0xaa") [("a", 0)]) "a" "MISSING" ≠
      "MISSING" :=
  (claim9_key_sets (fun _ => Except.ok "0xaa") (fun _ => Except.ok "0xbb")
      [("a", 0)]).2.2.2 "a" (by simp)
    (fun i v hv => by injection hv with h; rw [← h]; decide)

lemma collectSlots_ok {α : Type} (f : α → Except String Slot) :
    ∀ (xs : List α) (ys : List Slot), collectSlots f xs = Except.ok ys →
      ys.length = xs.length ∧
      ∀ i (hx : i < xs.length) (hy : i < ys.length),
        f (xs.get ⟨i, hx⟩) = Except.ok (ys.get ⟨i, hy⟩) := by
  intro xs
  induction xs with
  | nil =>
    intro ys h
    injection h with h2
    subst h2
    exact ⟨rfl, fun i hx _ => absurd hx (Nat.not_lt_zero i)⟩
  | cons x xs ih =>
    intro ys h
    rw [collectSlots] at h
    cases hfx : f x with
    | error e =>
      simp only [hfx] at h
      exact Except.noConfusion h
    | ok s =>
      simp only [hfx] at h
      cases hrec : collectSlots f xs with
      | error e =>
        simp only [hrec] at h
        exact Except.noConfusion h
      | ok rest =>
        simp only [hrec] at h
        injection h with h2
        subst h2
        obtain ⟨hlen, hidx⟩ := ih rest hrec
        refine ⟨by simp [hlen], ?_⟩
        intro i hx hy
        cases i with
        | zero => simpa using hfx
        | succ j =>
          have hx2 : j < xs.length := Nat.lt_of_succ_lt_succ hx
          have hy2 : j < rest.length := Nat.lt_of_succ_lt_succ hy
          simpa using hidx j hx2 hy2

lemma map_parse_ok (raw lb : String) (s : Slot)
    (h : (parse_slot_hex raw).map (fun n => (lb, n)) = Except.ok s) :
    s.1 = lb ∧ parse_slot_hex raw = Except.ok s.2 := by
  cases hp : parse_slot_hex raw with
  | error e =>
    rw [hp] at h
    simp only [Except.map] at h
    exact Except.noConfusion h
  | ok n =>
    rw [hp] at h
    simp only [Except.map] at h
    injection h with h2
    subst h2
    exact ⟨rfl, rfl⟩

/-- Claim C5: a JSON-array manifest yields one SlotSpec per element with
label the raw string and index its parsed base-16 value; a JSON-object
manifest yields one SlotSpec per key with label the key and index the
parsed value. -/
theorem claim5_manifest_shapes (xs : List String) (kvs : List (String × String)) :
    (∀ slots, parse_slots ⟨none, some (Except.ok (Manifest.arr xs))⟩ = Except.ok slots →
      slots.length = xs.length ∧
      ∀ i (hx : i < xs.length) (hs : i < slots.length),
        (slots.get ⟨i, hs⟩).1 = xs.get ⟨i, hx⟩ ∧
        parse_slot_hex (xs.get ⟨i, hx⟩) = Except.ok (slots.get ⟨i, hs⟩).2)
  ∧ (∀ slots, parse_slots ⟨none, some (Except.ok (Manifest.obj kvs))⟩ = Except.ok slots →
      slots.length = kvs.length ∧
      ∀ i (hk : i < kvs.length) (hs : i < slots.length),
        (slots.get ⟨i, hs⟩).1 = (kvs.get ⟨i, hk⟩).1 ∧
        parse_slot_hex (kvs.get ⟨i, hk⟩).2 = Except.ok (slots.get ⟨i, hs⟩).2) := by
  constructor
  · intro slots h
    have h2 : collectSlots
        (fun raw => (parse_slot_hex raw).map (fun n => (raw, n))) xs = Except.ok slots := h
    obtain ⟨hlen, hidx⟩ := collectSlots_ok _ xs slots h2
    refine ⟨hlen, fun i hx hs => ?_⟩
    have := map_parse_ok (xs.get ⟨i, hx⟩) (xs.get ⟨i, hx⟩) (slots.get ⟨i, hs⟩)
      (hidx i hx hs)
    exact this
  · intro slots h
    have h2 : collectSlots
        (fun lr => (parse_slot_hex lr.2).map (fun n => (lr.1, n))) kvs = Except.ok slots := h
    obtain ⟨hlen, hidx⟩ := collectSlots_ok _ kvs slots h2
    refine ⟨hlen, fun i hk hs => ?_⟩
    have := map_parse_ok (kvs.get ⟨i, hk⟩).2 (kvs.get ⟨i, hk⟩).1 (slots.get ⟨i, hs⟩)
      (hidx i hk hs)
    exact this

theorem claim5_manifest_shapes_witness :
    ([("0x2", 2)] : List Slot).length = (["0x2"] : List String).length ∧
    (([("0x2", 2)] : List Slot).get ⟨0, by decide⟩).1 =
      (["0x2"] : List String).get ⟨0, by decide⟩ ∧
    parse_slot_hex ((["0x2"] : List String).get ⟨0, by decide⟩) =
      Except.ok ((([("0x2", 2)] : List Slot).get ⟨0, by decide⟩).2) := by
  have h := (claim5_manifest_shapes ["0x2"] []).1 [("0x2", 2)] rfl
  exact ⟨h.1, (h.2 0 (by decide) (by decide)).1, (h.2 0 (by decide) (by decide)).2⟩

/-- Claim C6: a non-empty --slot list takes priority and the manifest is
never consulted; a manifest alone supplies its own SlotSpecs; with
neither source, or with a manifest that is neither array nor object,
parse_slots fails. -/
theorem claim6_slot_priority :
    (∀ (items : List String) (m1 m2 : Option (Except String Manifest)),
        items ≠ [] →
        parse_slots ⟨some items, m1⟩ = parse_slots ⟨some items, m2⟩)
  ∧ (∀ (items : List String) (m : Option (Except String Manifest)),
        items ≠ [] →
        parse_slots ⟨some items, m⟩ = collectSlots parseSlotItem items)
  ∧ (∀ m : Manifest, parse_slots ⟨none, some (Except.ok m)⟩ = manifestSlots m)
  ∧ (∃ e, parse_slots ⟨none, (none : Option (Except String Manifest))⟩ = Except.error e)
  ∧ (∃ e, parse_slots ⟨none, some (Except.ok Manifest.other)⟩ = Except.error e) := by
  have key : ∀ (items : List String) (m : Option (Except String Manifest)),
      items ≠ [] → parse_slots ⟨some items, m⟩ = collectSlots parseSlotItem items := by
    intro items m h
    cases items with
    | nil => exact absurd rfl h
    | cons x rest => simp [parse_slots, slotTruthy]
  refine ⟨fun items m1 m2 h => (key items m1 h).trans (key items m2 h).symm,
    key, fun m => rfl, ⟨_, rfl⟩, ⟨_, rfl⟩⟩

theorem claim6_slot_priority_witness :
    parse_slots ⟨some ["0x1"], some (Except.ok Manifest.other)⟩ =
      parse_slots ⟨some ["0x1"], none⟩ :=
  claim6_slot_priority.1 ["0x1"] (some (Except.ok Manifest.other)) none
    (by simp)

/-! ### mainMismatches and exit-code lemmas -/

lemma mainMismatches_foldl (a b : Dict) :
    ∀ (slots : List Slot) (n : Nat),
      slots.foldl
        (fun m ls =>
          if dictGetD a ls.1 "MISSING" ≠ dictGetD b ls.1 "MISSING" then m + 1 else m) n =
      n + (slots.filter
        (fun ls => decide (dictGetD a ls.1 "MISSING" ≠ dictGetD b ls.1 "MISSING"))).length := by
  intro slots
  induction slots with
  | nil => intro n; simp
  | cons s ss ih =>
    intro n
    by_cases h : dictGetD a s.1 "MISSING" ≠ dictGetD b s.1 "MISSING"
    · simp only [List.foldl_cons, List.filter_cons, if_pos h, if_pos (decide_eq_true h)]
      rw [ih]
      simp only [List.length_cons]
      omega
    · simp only [List.foldl_cons, List.filter_cons, if_neg h,
        if_neg (fun hc => h (of_decide_eq_true hc))]
      exact ih n

lemma mainMismatches_eq_filter (slots : List Slot) (a b : Dict) :
    mainMismatches slots a b =
      (slots.filter
        (fun ls => decide (dictGetD a ls.1 "MISSING" ≠ dictGetD b ls.1 "MISSING"))).length := by
  unfold mainMismatches
  rw [mainMismatches_foldl]
  simp

lemma mainMismatches_zero_iff (slots : List Slot) (a b : Dict) :
    mainMismatches slots a b = 0 ↔
      ∀ ls ∈ slots, dictGetD a ls.1 "MISSING" = dictGetD b ls.1 "MISSING" := by
  rw [mainMismatches_eq_filter, List.length_eq_zero, List.filter_eq_nil_iff]
  simp

/-- Claim C2: the exit code is 1 on a bad URL scheme, on an address or
slot-validation failure, and on a connectivity failure before any read;
once reads happen it is 0 when every slot's two looked-up values agree
and 2 when at least one differs. -/
theorem claim2_exit_codes (w : Web3Model) (args : MainArgs) :
    ((startsWithHttp args.rpc_a = false ∨ startsWithHttp args.rpc_b = false) →
      mainExit w args = 1)
  ∧ (∀ e, startsWithHttp args.rpc_a = true → startsWithHttp args.rpc_b = true →
      (to_checksum w args.address = Except.error e ∨
        parse_slots ⟨args.slot, args.manifest⟩ = Except.error e) →
      mainExit w args = 1)
  ∧ (∀ c slots, startsWithHttp args.rpc_a = true → startsWithHttp args.rpc_b = true →
      to_checksum w args.address = Except.ok c →
      parse_slots ⟨args.slot, args.manifest⟩ = Except.ok slots →
      (w.connected_a = false ∨ w.connected_b = false) → mainExit w args = 1)
  ∧ (∀ c slots, startsWithHttp args.rpc_a = true → startsWithHttp args.rpc_b = true →
      to_checksum w args.address = Except.ok c →
      parse_slots ⟨args.slot, args.manifest⟩ = Except.ok slots →
      w.connected_a = true → w.connected_b = true →
      (∀ ls ∈ slots, dictGetD (read_slots w.storage_a slots) ls.1 "MISSING" =
        dictGetD (read_slots w.storage_b slots) ls.1 "MISSING") →
      mainExit w args = 0)
  ∧ (∀ c slots, startsWithHttp args.rpc_a = true → startsWithHttp args.rpc_b = true →
      to_checksum w args.address = Except.ok c →
      parse_slots ⟨args.slot, args.manifest⟩ = Except.ok slots →
      w.connected_a = true → w.connected_b = true →
      (∃ ls ∈ slots, dictGetD (read_slots w.storage_a slots) ls.1 "MISSING" ≠
        dictGetD (read_slots w.storage_b slots) ls.1 "MISSING") →
      mainExit w args = 2) := by
  refine ⟨?_, ?_, ?_, ?_, ?_⟩
  · rintro (h | h) <;> simp [mainExit, h]
  · intro e h1 h2 hor
    rcases hor with hcs | hp
    · simp [mainExit, h1, h2, hcs]
    · cases hcs : to_checksum w args.address with
      | error e2 => simp [mainExit, h1, h2, hcs]
      | ok c => simp [mainExit, h1, h2, hcs, hp]
  · intro c slots h1 h2 hcs hp hconn
    rcases hconn with hc | hc <;> simp [mainExit, h1, h2, hcs, hp, hc]
  · intro c slots h1 h2 hcs hp hca hcb hall
    have hz : mainMismatches slots (read_slots w.storage_a slots)
        (read_slots w.storage_b slots) = 0 :=
      (mainMismatches_zero_iff _ _ _).mpr hall
    simp [mainExit, h1, h2, hcs, hp, hca, hcb, hz]
  · intro c slots h1 h2 hcs hp hca hcb hex
    have hz : mainMismatches slots (read_slots w.storage_a slots)
        (read_slots w.storage_b slots) ≠ 0 := by
      intro h0
      rcases hex with ⟨ls, hls, hne⟩
      exact hne ((mainMismatches_zero_iff _ _ _).mp h0 ls hls)
    simp [mainExit, h1, h2, hcs, hp, hca, hcb, hz]

theorem claim2_exit_codes_witness :
    mainExit
      ⟨fun _ => true, fun s => s, true, true,
        fun _ => Except.ok "0xaa", fun _ => Except.ok "0xaa"⟩
      ⟨"0xA", "http://a", "https://b", some ["0x1"], none⟩ = 0 :=
  (claim2_exit_codes
      ⟨fun _ => true, fun s => s, true, true,
        fun _ => Except.ok "0xaa", fun _ => Except.ok "0xaa"⟩
      ⟨"0xA", "http://a", "https://b", some ["0x1"], none⟩).2.2.2.1
    "0xA" [("0x1", 1)] rfl rfl rfl rfl rfl rfl
    (by intro ls hls; rfl)

lemma nodup_unionKeys (a b : Dict) : (unionKeys a b).Nodup := by
  unfold unionKeys
  exact ((List.mergeSort_perm _ _).nodup_iff).mpr (List.nodup_dedup _)

lemma unionKeys_perm_labels (oA oB : Nat → Except String String) (slots : List Slot)
    (h : (slots.map Prod.fst).Nodup) :
    (unionKeys (read_slots oA slots) (read_slots oB slots)).Perm (slots.map Prod.fst) := by
  rw [List.perm_ext_iff_of_nodup (nodup_unionKeys _ _) h]
  intro k
  rw [mem_unionKeys, keys_read_slots, keys_read_slots]
  simp

lemma length_mismatchList (a b : Dict) :
    (mismatchList a b).length =
      ((unionKeys a b).filter
        (fun k => decide (dictGetD a k "MISSING" ≠ dictGetD b k "MISSING"))).length := by
  rw [← filterMap_mismatch_map_fst a b (unionKeys a b), List.length_map]
  rfl

/-- Claim C10: on a slot list with pairwise-distinct labels, the mismatch
count of main's per-slot loop over the two maps read from that list equals
the length of the mismatch list compare returns on the same maps, and
main's zero-mismatch exit condition coincides with compare's ok flag. -/
theorem claim10_main_refines_compare (oA oB : Nat → Except String String)
    (slots : List Slot) (h : (slots.map Prod.fst).Nodup) :
    mainMismatches slots (read_slots oA slots) (read_slots oB slots) =
      (compare (read_slots oA slots) (read_slots oB slots)).1.length
  ∧ (mainMismatches slots (read_slots oA slots) (read_slots oB slots) = 0 ↔
      (compare (read_slots oA slots) (read_slots oB slots)).2 = true) := by
  have hcount : mainMismatches slots (read_slots oA slots) (read_slots oB slots) =
      (compare (read_slots oA slots) (read_slots oB slots)).1.length := by
    rw [compare_eq, mainMismatches_eq_filter, length_mismatchList]
    have hperm := (unionKeys_perm_labels oA oB slots h).filter
      (fun k => decide (dictGetD (read_slots oA slots) k "MISSING" ≠
        dictGetD (read_slots oB slots) k "MISSING"))
    rw [hperm.length_eq, List.filter_map, List.length_map]
    rfl
  refine ⟨hcount, ?_⟩
  rw [hcount, compare_eq]
  show _ ↔ (mismatchList _ _).isEmpty = true
  rw [List.isEmpty_iff, List.length_eq_zero]

theorem claim10_main_refines_compare_witness :
    mainMismatches [("a", 0)]
        (read_slots (fun _ => Except.ok "0xaa") [("a", 0)])
        (read_slots (fun _ => Except.ok "0xbb") [("a", 0)]) =
      (compare (read_slots (fun _ => Except.ok "0xaa") [("a", 0)])
        (read_slots (fun _ => Except.ok "0xbb") [("a", 0)])).1.length :=
  (claim10_main_refines_compare (fun _ => Except.ok "0xaa") (fun _ => Except.ok "0xbb")
    [("a", 0)] (by simp)).1

/-! ### Hex-payload lemmas -/

lemma parseRest_all_digits :
    ∀ (cs : List Char) (acc : Nat), (∀ c ∈ cs, isHexDigit c = true) →
      parseRest acc cs = some (cs.foldl (fun a c => 16 * a + hexVal c) acc) := by
  intro cs
  induction cs with
  | nil => intro acc _; rfl
  | cons c cs ih =>
    intro acc h
    have hc : isHexDigit c = true := h c (List.mem_cons_self c cs)
    have hne : ¬(c = '_') := by
      intro he
      rw [he] at hc
      exact absurd hc (by decide)
    cases cs with
    | nil =>
      rw [parseRest.eq_2, if_neg hne, if_pos hc, parseRest.eq_1]
      rfl
    | cons c2 cs2 =>
      rw [parseRest.eq_3, if_neg hne, if_pos hc,
        ih _ (fun d hd => h d (List.mem_cons_of_mem c hd))]
      rfl

lemma parsePayload_all_digits (p : List Char) (hne : p ≠ [])
    (h : ∀ c ∈ p, isHexDigit c = true) :
    parsePayload p = some (p.foldl (fun a c => 16 * a + hexVal c) 0) := by
  cases p with
  | nil => exact absurd rfl hne
  | cons c cs =>
    have hc : isHexDigit c = true := h c (List.mem_cons_self c cs)
    have hu : ¬(c = '_') := by
      intro he
      rw [he] at hc
      exact absurd hc (by decide)
    simp only [parsePayload]
    rw [if_neg hu, if_pos hc,
      parseRest_all_digits cs (hexVal c) (fun d hd => h d (List.mem_cons_of_mem c hd))]
    simp

lemma parseRest_bad_aux :
    ∀ (n : Nat) (cs : List Char), cs.length ≤ n → ∀ (acc : Nat) (c : Char),
      c ∈ cs → isHexDigit c = false → c ≠ '_' → parseRest acc cs = none := by
  intro n
  induction n with
  | zero =>
    intro cs hlen acc c hc _ _
    rw [List.length_eq_zero.mp (Nat.le_zero.mp hlen)] at hc
    exact absurd hc (List.not_mem_nil c)
  | succ n ih =>
    intro cs hlen acc c hc hbad hnu
    cases cs with
    | nil => exact absurd hc (List.not_mem_nil c)
    | cons d ds =>
      by_cases hd : d = '_'
      · cases ds with
        | nil => rw [parseRest.eq_2, if_pos hd]
        | cons d2 ds2 =>
          rw [parseRest.eq_3, if_pos hd]
          by_cases h2 : isHexDigit d2 = true
          · rw [if_pos h2]
            have hcs : c ∈ ds2 := by
              rcases List.mem_cons.mp hc with h3 | h3
              · exact absurd (h3.trans hd) hnu
              · rcases List.mem_cons.mp h3 with h4 | h4
                · rw [h4] at hbad
                  rw [hbad] at h2
                  exact absurd h2 (by decide)
                · exact h4
            exact ih ds2 (by simp at hlen ⊢; omega) _ c hcs hbad hnu
          · rw [if_neg h2]
      · cases ds with
        | nil =>
          have hcd : c = d := by
            rcases List.mem_cons.mp hc with h3 | h3
            · exact h3
            · exact absurd h3 (List.not_mem_nil c)
          rw [parseRest.eq_2, if_neg hd, ← hcd, hbad]
          simp
        | cons d2 ds2 =>
          rw [parseRest.eq_3, if_neg hd]
          by_cases hdg : isHexDigit d = true
          · rw [if_pos hdg]
            have hcs : c ∈ d2 :: ds2 := by
              rcases List.mem_cons.mp hc with h3 | h3
              · rw [h3] at hbad
                rw [hbad] at hdg
                exact absurd hdg (by decide)
              · exact h3
            exact ih (d2 :: ds2) (by simp at hlen ⊢; omega) _ c hcs hbad hnu
          · rw [if_neg hdg]

lemma parseRest_bad (cs : List Char) (acc : Nat) (c : Char)
    (hc : c ∈ cs) (hbad : isHexDigit c = false) (hnu : c ≠ '_') :
    parseRest acc cs = none :=
  parseRest_bad_aux cs.length cs le_rfl acc c hc hbad hnu

lemma parsePayload_bad (p : List Char) (c : Char)
    (hc : c ∈ p) (hbad : isHexDigit c = false) (hnu : c ≠ '_') :
    parsePayload p = none := by
  cases p with
  | nil => rfl
  | cons d ds =>
    simp only [parsePayload]
    by_cases hd : d = '_'
    · rw [if_pos hd]
      cases ds with
      | nil => rfl
      | cons d2 ds2 =>
        show (if isHexDigit d2 = true then parseRest (hexVal d2) ds2 else none) = none
        by_cases h2 : isHexDigit d2 = true
        · rw [if_pos h2]
          have hcs : c ∈ ds2 := by
            rcases List.mem_cons.mp hc with h3 | h3
            · exact absurd (h3.trans hd) hnu
            · rcases List.mem_cons.mp h3 with h4 | h4
              · rw [h4] at hbad
                rw [hbad] at h2
                exact absurd h2 (by decide)
              · exact h4
          exact parseRest_bad ds2 _ c hcs hbad hnu
        · rw [if_neg h2]
    · rw [if_neg hd]
      by_cases hdg : isHexDigit d = true
      · rw [if_pos hdg]
        have hcs : c ∈ ds := by
          rcases List.mem_cons.mp hc with h3 | h3
          · rw [h3] at hbad
            rw [hbad] at hdg
            exact absurd hdg (by decide)
          · exact h3
        exact parseRest_bad ds _ c hcs hbad hnu
      · rw [if_neg hdg]

/-- Claim C3, counterexample: the stripped, lower-cased input 0x_f has the
payload underscore-f, whose first character is not a hexadecimal digit,
yet parse_slot_hex accepts it and returns 15 (CPython base-16 parsing
tolerates underscore separators), instead of raising. -/
theorem claim3_counterexample :
    pyLower (pyStrip ("0x_f".data)) = ['0', 'x', '_', 'f'] ∧
    isHexDigit '_' = false ∧
    parse_slot_hex "0x_f" = Except.ok 15 :=
  ⟨by decide, by decide, rfl⟩

/-- Claim C3 as amended: parse_slot_hex errors on every input whose
stripped, lower-cased form does not start with 0x; with the marker
present it errors on an empty payload and whenever the payload holds a
character that is neither a hex digit nor an underscore, and on a
non-empty payload of pure hex digits it returns the base-16 value.
(Underscore group separators, as in Python integer literals, are
additionally accepted and skipped.) -/
theorem claim3_hex_validation :
    (∀ raw : String, listLeads ['0', 'x'] (pyLower (pyStrip raw.data)) = false →
        parse_slot_hex raw = Except.error ("Slot must be 0x-prefixed hex: " ++ raw))
  ∧ (∀ (raw : String) (p : List Char), pyLower (pyStrip raw.data) = '0' :: 'x' :: p →
        p ≠ [] → (∀ c ∈ p, isHexDigit c = true) →
        parse_slot_hex raw = Except.ok (p.foldl (fun a c => 16 * a + hexVal c) 0))
  ∧ (∀ (raw : String) (p : List Char) (c : Char),
        pyLower (pyStrip raw.data) = '0' :: 'x' :: p →
        c ∈ p → isHexDigit c = false → c ≠ '_' →
        parse_slot_hex raw = Except.error ("Invalid slot hex: " ++ raw))
  ∧ (∀ raw : String, pyLower (pyStrip raw.data) = ['0', 'x'] →
        parse_slot_hex raw = Except.error ("Invalid slot hex: " ++ raw)) := by
  refine ⟨?_, ?_, ?_, ?_⟩
  · intro raw h
    simp only [parse_slot_hex]
    rw [h]
    simp
  · intro raw p hs hne hall
    simp only [parse_slot_hex]
    rw [hs]
    rw [if_pos (by simp [listLeads])]
    simp only [List.drop_succ_cons, List.drop_zero]
    rw [parsePayload_all_digits p hne hall]
  · intro raw p c hs hc hbad hnu
    simp only [parse_slot_hex]
    rw [hs]
    rw [if_pos (by simp [listLeads])]
    simp only [List.drop_succ_cons, List.drop_zero]
    rw [parsePayload_bad p c hc hbad hnu]
  · intro raw hs
    simp only [parse_slot_hex]
    rw [hs]
    rw [if_pos (by simp [listLeads])]
    rfl

theorem claim3_hex_validation_witness :
    parse_slot_hex "0xff" =
      Except.ok ((['f', 'f'] : List Char).foldl (fun a c => 16 * a + hexVal c) 0) :=
  claim3_hex_validation.2.1 "0xff" ['f', 'f'] (by decide) (by decide) (by decide)

lemma foldl_hex_replicate_zero :
    ∀ (k : Nat) (acc : Nat),
      (List.replicate k '0').foldl (fun a c => 16 * a + hexVal c) acc = acc * 16 ^ k := by
  intro k
  induction k with
  | zero => intro acc; simp
  | succ j ih =>
    intro acc
    rw [List.replicate_succ, List.foldl_cons, ih]
    have h0 : hexVal '0' = 0 := by decide
    rw [h0, pow_succ]
    ring

lemma dropWhile_eq_self_of_all (p : Char → Bool) (l : List Char)
    (h : ∀ c ∈ l, p c = false) : l.dropWhile p = l := by
  cases l with
  | nil => rfl
  | cons c cs =>
    rw [List.dropWhile_cons, h c (List.mem_cons_self c cs)]
    simp

lemma pyStrip_eq_self (cs : List Char) (h : ∀ c ∈ cs, isPySpace c = false) :
    pyStrip cs = cs := by
  unfold pyStrip
  rw [dropWhile_eq_self_of_all isPySpace cs h,
    dropWhile_eq_self_of_all isPySpace cs.reverse
      (fun c hc => h c (List.mem_reverse.mp hc)),
    List.reverse_reverse]

lemma pyLower_eq_self (cs : List Char) (h : ∀ c ∈ cs, c.toLower = c) :
    pyLower cs = cs := by
  unfold pyLower
  induction cs with
  | nil => rfl
  | cons c t ih =>
    rw [List.map_cons, h c (List.mem_cons_self c t),
      ih (fun d hd => h d (List.mem_cons_of_mem c hd))]

lemma splitColon_none (cs : List Char) (h : ∀ c ∈ cs, c ≠ ':') :
    splitColon cs = none := by
  induction cs with
  | nil => rfl
  | cons c t ih =>
    simp only [splitColon]
    rw [if_neg (h c (List.mem_cons_self c t)),
      ih (fun d hd => h d (List.mem_cons_of_mem c hd))]

/-- Claim C4, counterexample: a 0x1 followed by sixty-four zeros is
accepted by the slot-spec parser and yields the index 2 to the power 256,
which is not below 2 to the power 256: no 256-bit bound is enforced. -/
theorem claim4_counterexample :
    parse_slots
      ⟨some ["0x10000000000000000000000000000000000000000000000000000000000000000"],
        none⟩ =
      Except.ok
        [("0x10000000000000000000000000000000000000000000000000000000000000000",
          2 ^ 256)]
    ∧ ¬(2 ^ 256 < 2 ^ 256) :=
  ⟨rfl, Nat.lt_irrefl _⟩

/-- Claim C4 as amended: the slot-spec parser performs no range check on
the parsed index; it returns the full base-16 value, and for every bound
there are accepted inputs whose index exceeds it. -/
theorem claim4_unbounded_index :
    ∀ B : Nat, ∃ (raw : String) (n : Nat),
      parse_slot_hex raw = Except.ok n ∧
      parse_slots ⟨some [raw], none⟩ = Except.ok [(raw, n)] ∧ B < n := by
  intro B
  have hmem3 : ∀ c ∈ ('0' :: 'x' :: '1' :: List.replicate B '0' : List Char),
      c = '0' ∨ c = 'x' ∨ c = '1' := by
    intro c hc
    rcases List.mem_cons.mp hc with rfl | hc
    · exact Or.inl rfl
    rcases List.mem_cons.mp hc with rfl | hc
    · exact Or.inr (Or.inl rfl)
    rcases List.mem_cons.mp hc with rfl | hc
    · exact Or.inr (Or.inr rfl)
    · exact Or.inl (List.mem_replicate.mp hc).2
  have hsp : ∀ c ∈ ('0' :: 'x' :: '1' :: List.replicate B '0' : List Char),
      isPySpace c = false := by
    intro c hc
    rcases hmem3 c hc with rfl | rfl | rfl <;> decide
  have hlw : ∀ c ∈ ('0' :: 'x' :: '1' :: List.replicate B '0' : List Char),
      c.toLower = c := by
    intro c hc
    rcases hmem3 c hc with rfl | rfl | rfl <;> decide
  have hcl : ∀ c ∈ ('0' :: 'x' :: '1' :: List.replicate B '0' : List Char),
      c ≠ ':' := by
    intro c hc
    rcases hmem3 c hc with rfl | rfl | rfl <;> decide
  have hdig : ∀ c ∈ ('1' :: List.replicate B '0' : List Char), isHexDigit c = true := by
    intro c hc
    rcases List.mem_cons.mp hc with rfl | hc
    · decide
    · rw [(List.mem_replicate.mp hc).2]
      decide
  have hfold : ('1' :: List.replicate B '0').foldl (fun a c => 16 * a + hexVal c) 0 =
      16 ^ B := by
    rw [List.foldl_cons]
    have h1 : 16 * 0 + hexVal '1' = 1 := by decide
    rw [h1, foldl_hex_replicate_zero]
    ring
  have hpp : parsePayload ('1' :: List.replicate B '0') = some (16 ^ B) := by
    rw [parsePayload_all_digits _ (by simp) hdig, hfold]
  have hph : parse_slot_hex (String.mk ('0' :: 'x' :: '1' :: List.replicate B '0')) =
      Except.ok (16 ^ B) := by
    simp only [parse_slot_hex]
    rw [pyStrip_eq_self _ hsp, pyLower_eq_self _ hlw]
    rw [if_pos (by simp [listLeads])]
    simp only [List.drop_succ_cons, List.drop_zero]
    rw [hpp]
  have hitem : parseSlotItem (String.mk ('0' :: 'x' :: '1' :: List.replicate B '0')) =
      Except.ok (String.mk ('0' :: 'x' :: '1' :: List.replicate B '0'), 16 ^ B) := by
    simp only [parseSlotItem]
    rw [splitColon_none _ hcl, hph]
    rfl
  refine ⟨String.mk ('0' :: 'x' :: '1' :: List.replicate B '0'), 16 ^ B, hph, ?_,
    Nat.lt_pow_self (by norm_num) B⟩
  simp only [parse_slots, slotTruthy, List.isEmpty_cons, Bool.not_false, if_pos,
    Option.getD_some]
  simp only [collectSlots, hitem]

end ZkSlot
